import Mathlib

/-!
# Verification of the PCC award-report backend (`server.js`)

Shallow embedding of the report-generation pipeline of the
`pcc-award-report-backend` repository.  JavaScript runtime values are
modelled as follows:

* machine floats are modelled as exact rationals (`ℚ`); `Number.toFixed(n)`
  followed by `Number(...)` is modelled as exact decimal rounding
  (round half toward positive infinity, as the ECMAScript `toFixed`
  algorithm prescribes for the exact value);
* a JavaScript number that may be `NaN` is modelled as `Option ℚ`
  (`none` = `NaN`); every comparison involving `NaN` is false, and `NaN`
  is falsy;
* `Date` values are modelled at calendar-day granularity by their
  day number (`rataDie`, proleptic Gregorian); the `new Date(y, m, d)`
  constructor normalization (month overflow, day 0 / day overflow) is
  day-number arithmetic, exactly as in ECMAScript `MakeDay`;
* the result of parsing a date string (`new Date(string)`) is abstracted
  as an `Option CalDate` / a valuation `String → Option Int`
  (`none` = `Invalid Date`).
-/

namespace PccAward

/-! ## Calendar model (ECMAScript `Date` at day granularity) -/
/-- Gregorian leap-year predicate. -/
def isLeapYear (y : Int) : Bool :=
  (y % 4 == 0 && y % 100 != 0) || y % 400 == 0

/-- Number of days of month `m` (1–12) of year `y`. -/
def daysInMonth (y m : Int) : Int :=
  if m = 2 then (if isLeapYear y then 29 else 28)
  else if m = 4 ∨ m = 6 ∨ m = 9 ∨ m = 11 then 30
  else 31

/-- Day number of the Gregorian calendar date `y-m-d` (Julian-day style
closed formula; only differences of values matter). -/
def rataDie (y m d : Int) : Int :=
  let a := (14 - m) / 12
  let y2 := y + 4800 - a
  let m2 := m + 12 * a - 3
  d + (153 * m2 + 2) / 5 + 365 * y2 + y2 / 4 - y2 / 100 + y2 / 400 - 32045

/-- Day number of the first day of the month with linear index `t`
(`t = year * 12 + monthIndex`, month index 0-based, as produced by the
ECMAScript `Date` month normalization; `/` and `%` on `Int` are floor
division and its remainder for positive divisors, as in JavaScript). -/
def monthFirst (t : Int) : Int :=
  rataDie (t / 12) (t % 12 + 1) 1

/-- Day number of the ECMAScript `new Date(y, monthIndex, d)` value:
first day of the normalized month plus a day offset (this is exactly the
`MakeDay` day-arithmetic semantics, covering day `0` and day overflow). -/
def jsMakeDay (y mIdx d : Int) : Int :=
  monthFirst (y * 12 + mIdx) + (d - 1)

/-- A parsed calendar date (result of a successful `new Date(string)`,
abstracted to day granularity). -/
structure CalDate where
  y : Int
  m : Int
  d : Int
deriving DecidableEq, Repr

/-- Day number of a parsed calendar date. -/
def dateNum (c : CalDate) : Int := rataDie c.y c.m c.d

/-- Linear month index of a calendar date (`getFullYear() * 12 + getMonth()`). -/
def monthLin (c : CalDate) : Int := c.y * 12 + (c.m - 1)

/-! ## Period resolver (`buildFileList`, `rangesOverlap`, `fileNameToToken`) -/
/-- Overlap test `rangesOverlap(aStart, aEnd, bStart, bEnd)` from `server.js`:
inclusive interval-overlap test `aStart <= bEnd && bStart <= aEnd`. -/
def rangesOverlap (aStart aEnd bStart bEnd : Int) : Bool :=
  decide (aStart ≤ bEnd) && decide (bStart ≤ aEnd)

/-- Padding `String(m).padStart(2, '0')` for the month number. -/
def pad2 (n : Int) : String :=
  let s := toString n
  if s.length < 2 then "0" ++ s else s

/-- The FileId template `award_${y}${m}01.xml` / `award_${y}${m}02.xml`
for the month with linear index `t`; `second` selects the second half. -/
def awardName (t : Int) (second : Bool) : String :=
  "award_" ++ toString (t / 12) ++ pad2 (t % 12 + 1) ++
    (if second then "02" else "01") ++ ".xml"

/-- Insertion via `Map.set` keyed by the file name: the JS code stores
singleton objects carrying the file name in a `Map` keyed by that same
name, so a second insertion of the same
name is a no-op (same key, same value). -/
def insertUnique (l : List String) (x : String) : List String :=
  if x ∈ l then l else l ++ [x]

/-- Start of the half-month interval of FileId `(t, second)`:
day 1 resp. day 16 of the month. -/
def halfStart (t : Int) (second : Bool) : Int :=
  if second then monthFirst t + 15 else monthFirst t

/-- End of the half-month interval of FileId `(t, second)`:
day 15 resp. the last day of the month. -/
def halfEnd (t : Int) (second : Bool) : Int :=
  if second then monthFirst (t + 1) - 1 else monthFirst t + 14

/-- One iteration body of the `while` loop of `buildFileList` for the
month with linear index `t` (year `t / 12`, month index `t % 12`): the
two half-interval tests and conditional `Map.set` insertions. -/
def stepMonth (sN eN t : Int) (acc : List String) : List String :=
  let acc1 :=
    if rangesOverlap sN eN (jsMakeDay (t / 12) (t % 12) 1) (jsMakeDay (t / 12) (t % 12) 15) then
      insertUnique acc (awardName t false)
    else acc
  if rangesOverlap sN eN (jsMakeDay (t / 12) (t % 12) 16) (jsMakeDay (t / 12) (t % 12 + 1) 0) then
    insertUnique acc1 (awardName t true)
  else acc1

/-- The `while (cur <= e)` loop of `buildFileList`: `cur` is the first
day of the month with linear index `t`. -/
def buildLoop (sN eN : Int) (t : Int) (acc : List String) : List String :=
  if _h : monthFirst t ≤ eN then
    buildLoop sN eN (t + 1) (stepMonth sN eN t acc)
  else acc
termination_by (eN + 1 - monthFirst t).toNat
decreasing_by
  have hmono : monthFirst t < monthFirst (t + 1) := by
    have h12 : t % 12 = 0 ∨ t % 12 = 1 ∨ t % 12 = 2 ∨ t % 12 = 3 ∨
        t % 12 = 4 ∨ t % 12 = 5 ∨ t % 12 = 6 ∨ t % 12 = 7 ∨
        t % 12 = 8 ∨ t % 12 = 9 ∨ t % 12 = 10 ∨ t % 12 = 11 := by
      omega
    simp only [monthFirst, rataDie]
    rcases h12 with h | h | h | h | h | h | h | h | h | h | h | h <;> omega
  omega

/-- Resolver `buildFileList(start, end)`: the inputs are the results of
`new Date(start)` / `new Date(end)` (`none` = `Invalid Date`). -/
def buildFileList (s e : Option CalDate) : List String :=
  match s, e with
  | some sd, some ed =>
      if dateNum sd > dateNum ed then []
      else buildLoop (dateNum sd) (dateNum ed) (monthLin sd) []
  | _, _ => []

/-! ## JavaScript value model and `safeGet` -/
/-- A JavaScript runtime value, as far as the pipeline observes it.
Numbers are exact rationals (an actual `NaN` never flows into a `JSVal`
in the modelled pipeline; fallible numeric parses use `Option ℚ`). -/
inductive JSVal where
  | vundefined
  | vnull
  | vbool (b : Bool)
  | vnum (q : ℚ)
  | vstr (s : String)
  | vobj (fields : List (String × JSVal))
  | varr (elems : List JSVal)

/-- JavaScript truthiness. -/
def jsTruthy : JSVal → Bool
  | .vundefined => false
  | .vnull => false
  | .vbool b => b
  | .vnum q => decide (q ≠ 0)
  | .vstr s => decide (s ≠ "")
  | .vobj _ => true
  | .varr _ => true

/-- Test `typeof v === 'object'` (true for `null`, plain objects and arrays). -/
def isObjType : JSVal → Bool
  | .vnull => true
  | .vobj _ => true
  | .varr _ => true
  | _ => false

/-- Array indexing `elems[k]` with a string key: only the canonical
numeral form of an in-range index hits an element (array methods and
`length` are not modelled; the pipeline never reads them via `safeGet`). -/
def arrIndex (elems : List JSVal) (k : String) : JSVal :=
  match k.toNat? with
  | some i => if toString i = k then elems.getD i .vundefined else .vundefined
  | none => .vundefined

/-- Property access `cur[k]` as performed by `safeGet` (only reached
when the guard established `cur` is a truthy object). -/
def jsIndex : JSVal → String → JSVal
  | .vobj fields, k => match fields.lookup k with
      | some v => v
      | none => .vundefined
  | .varr elems, k => arrIndex elems k
  | _, _ => .vundefined

/-- Lookup `safeGet(obj, pathArr)` from `server.js`: walk the key path, bailing
out with `''` when the current value is falsy or not object-typed, and
replace a `null`/`undefined` final value by `''` (`cur ?? ''`). -/
def safeGet (obj : JSVal) (pathArr : List String) : JSVal :=
  match pathArr with
  | [] =>
      match obj with
      | .vnull => .vstr ""
      | .vundefined => .vstr ""
      | v => v
  | k :: ks =>
      if jsTruthy obj && isObjType obj then safeGet (jsIndex obj k) ks
      else .vstr ""

/-- A value at which `safeGet` must stop: `null`, `undefined`, or not an
object (this is exactly `!cur || typeof cur !== 'object'`, since every
object is truthy and `null` is object-typed but falsy). -/
def badNode (v : JSVal) : Bool :=
  !(jsTruthy v && isObjType v)

/-- Specification-side: some intermediate value along the key path
(the input itself, or the value reached before consuming a further key)
is a `badNode`. -/
def hasBadHop (obj : JSVal) (path : List String) : Bool :=
  match path with
  | [] => false
  | k :: ks => badNode obj || hasBadHop (jsIndex obj k) ks

/-! ## Progress state (`progressState`, `updateProgress`) -/
/-- The `progressState` object of `server.js`. -/
structure Progress where
  current : Nat
  total : Nat
  percent : Nat
  labels : List String
  counts : List Nat
  complete : Bool
  error : Bool
  message : String
  reportFile : String
  summaryRowCount : Nat
  rawRowCount : Nat
deriving DecidableEq, Repr

/-- Percentage `total ? Math.min(100, Math.round((current / total) * 100)) : 100`.
`Math.round (100 * c / t)` on exact values is `⌊(100 c + t/2) / t⌋`,
i.e. `(200 c + t) / (2 t)` in natural division. -/
def percentOf (current total : Nat) : Nat :=
  if total = 0 then 100 else min 100 ((200 * current + total) / (2 * total))

/-- The fresh `progressState` installed at the start of `generateJob`
(total = number of resolved files). -/
def resetProgress (total : Nat) : Progress :=
  { current := 0
    total := total
    percent := if total = 0 then 100 else 0
    labels := []
    counts := []
    complete := false
    error := false
    message := "開始處理…"
    reportFile := ""
    summaryRowCount := 0
    rawRowCount := 0 }

/-- Update `updateProgress(label, count, message = '')` from `server.js`. -/
def updateProgress (p : Progress) (label : String) (count : Nat) (message : String) : Progress :=
  { p with
    current := p.current + 1
    labels := p.labels ++ [label]
    counts := p.counts ++ [count]
    percent := percentOf (p.current + 1) p.total
    message := if message ≠ "" then message else p.message }

/-! ## Bidder aggregation (`bidderMap` update, lines 222–238 of `server.js`) -/
/-- One normalized row as the aggregator consumes it: bidder name and
award date as the strings the row carries, price already converted to
millions. -/
structure AggRow where
  bidderName : String
  awardDate : String
  priceMillion : ℚ
deriving DecidableEq, Repr

/-- A `bidderMap` entry: `{ count: 0, sumMillion: 0, latestDate: '',
latestPriceMillion: 0 }`. -/
structure BidderInfo where
  count : Nat
  sumMillion : ℚ
  latestDate : String
  latestPriceMillion : ℚ
deriving DecidableEq, Repr

/-- The freshly created `bidderMap` entry. -/
def initInfo : BidderInfo := ⟨0, 0, "", 0⟩

/-- Comparison `new Date(a) > new Date(b)` for date strings, under a date valuation
`dv` (`none` = `Invalid Date`): any comparison involving `NaN` is false. -/
def jsDateGt (dv : String → Option Int) (a b : String) : Bool :=
  match dv a, dv b with
  | some x, some y => decide (x > y)
  | _, _ => false

/-- The per-row update of one bidder's map entry: bump `count`, add the
price-in-millions to `sumMillion`, and update the latest pair only when
the row has a non-empty award date and either no latest date is
recorded yet or the row's date compares strictly greater. -/
def updateBidder (dv : String → Option Int) (info : BidderInfo) (r : AggRow) : BidderInfo :=
  let info1 : BidderInfo :=
    { info with count := info.count + 1, sumMillion := info.sumMillion + r.priceMillion }
  if r.awardDate ≠ "" ∧ (info.latestDate = "" ∨ jsDateGt dv r.awardDate info.latestDate = true)
  then { info1 with latestDate := r.awardDate, latestPriceMillion := r.priceMillion }
  else info1

/-- One aggregation step over the whole `bidderMap` (modelled as a
function from bidder name to optional entry): rows with an empty bidder
name are skipped. -/
def bidderStep (dv : String → Option Int) (m : String → Option BidderInfo) (r : AggRow) :
    String → Option BidderInfo :=
  if r.bidderName = "" then m
  else fun name =>
    if name = r.bidderName then some (updateBidder dv ((m r.bidderName).getD initInfo) r)
    else m name

/-- The aggregation fold over all normalized rows, starting from the
empty `bidderMap`. -/
def aggregate (dv : String → Option Int) (rows : List AggRow) : String → Option BidderInfo :=
  rows.foldl (bidderStep dv) (fun _ => none)

/-- Value `v` bounds (under `dv`) every non-empty award date occurring in `l`. -/
def dvUB (dv : String → Option Int) (l : List AggRow) (v : Int) : Prop :=
  ∀ r ∈ l, r.awardDate ≠ "" → ∀ u, dv r.awardDate = some u → u ≤ v

/-- Some dated row of `l` carries exactly the recorded latest pair and
has value `v` under `dv`. -/
def dvAtt (dv : String → Option Int) (l : List AggRow) (v : Int) (j : BidderInfo) : Prop :=
  ∃ r ∈ l, r.awardDate ≠ "" ∧ r.awardDate = j.latestDate ∧
    dv r.awardDate = some v ∧ r.priceMillion = j.latestPriceMillion

/-- Concrete date valuation used by the C1 witness. -/
def c1Dv : String → Option Int := fun s =>
  if s = "2024-01-02" then some 2 else if s = "2024-01-01" then some 1 else none

/-- Concrete normalized rows used by the C1 witness. -/
def c1Rows : List AggRow :=
  [⟨"甲公司", "2024-01-01", 3⟩, ⟨"乙公司", "", 7⟩, ⟨"甲公司", "2024-01-02", 5⟩]

/-- The bidder-map entry the C1 witness expects for 甲公司. -/
def c1Info : BidderInfo := ⟨2, 8, "2024-01-02", 5⟩

/-! ## Field normalization and the price pipeline (lines 189–220 of `server.js`) -/
/-- Disjunction `a || b` on JavaScript values. -/
def jsOr (a b : JSVal) : JSVal := if jsTruthy a then a else b

/-- Coercion `String(v)`.  Number-to-string float formatting and the comma-join
rendering of arrays are not modelled (the `xml2js` output consumed by
the pipeline contains only strings, objects and arrays of those at the
positions read as text, so those branches never carry data here). -/
def jsToString : JSVal → String
  | .vstr s => s
  | .vnull => "null"
  | .vundefined => "undefined"
  | .vbool b => if b then "true" else "false"
  | .vnum _ => ""
  | .vobj _ => "[object Object]"
  | .varr _ => ""

/-- Stripping `.replace(/,/g, '')`: drop every comma. -/
def stripCommas (s : String) : String :=
  String.mk (s.toList.filter (fun c => decide (c ≠ ',')))

/-- Decimal digits only. -/
def allDigits (cs : List Char) : Bool :=
  cs.all (fun c => decide ('0' ≤ c) && decide (c ≤ '9'))

/-- Value of a digit string. -/
def digitsToNat (cs : List Char) : Nat :=
  cs.foldl (fun n c => 10 * n + (c.toNat - 48)) 0

/-- Leading and trailing whitespace removed (the `StrWhiteSpaceChar`
trimming of the ECMAScript `ToNumber` grammar, at ASCII granularity). -/
def trimChars (cs : List Char) : List Char :=
  ((cs.dropWhile Char.isWhitespace).reverse.dropWhile Char.isWhitespace).reverse

/-- Parsing `Number(s)` (`none` = `NaN`), modelled for plain signed decimal
literals: trimmed empty input is `0`; otherwise an optional sign
followed by digits with an optional decimal point (at least one digit)
parses exactly; anything else is `NaN`.  (Hex, exponent and `Infinity`
forms of the full ECMAScript grammar are not modelled; the award-price
texts are plain decimal numerals with thousands separators already
stripped.) -/
def jsNumber (s : String) : Option ℚ :=
  let t := trimChars s.toList
  if t = [] then some 0
  else
    let neg : Bool :=
      match t with
      | '-' :: _ => true
      | _ => false
    let body : List Char :=
      match t with
      | '-' :: rest => rest
      | '+' :: rest => rest
      | _ => t
    let ip := body.takeWhile (fun c => decide (c ≠ '.'))
    let rest := body.dropWhile (fun c => decide (c ≠ '.'))
    let core : Option ℚ :=
      match rest with
      | [] => if ip ≠ [] ∧ allDigits ip then some (digitsToNat ip : ℚ) else none
      | _ :: fp =>
          if (ip ≠ [] ∨ fp ≠ []) ∧ allDigits ip ∧ allDigits fp then
            some ((digitsToNat ip : ℚ) + (digitsToNat fp : ℚ) / (10 : ℚ) ^ fp.length)
          else none
    match core with
    | some q => some (if neg then -q else q)
    | none => none

/-- Rounding `Number(x.toFixed(n))` on the exact value: round to `n` decimal
places, half toward positive infinity. -/
def jsToFixed (n : Nat) (q : ℚ) : ℚ :=
  ((⌊q * 10 ^ n + 1 / 2⌋ : Int) : ℚ) / 10 ^ n

/-- Coercion `priceText ? Number(priceText) : 0` — the `price` variable
(`none` = `NaN`, arising from a non-empty unparseable text). -/
def jsPrice (priceText : String) : Option ℚ :=
  if priceText = "" then some 0 else jsNumber priceText

/-- Derivation `price ? price / 1_000_000 : 0` — both `NaN` and `0` are falsy, so
`priceMillion` is always an actual number. -/
def jsPriceMillion : Option ℚ → ℚ
  | some q => if q ≠ 0 then q / 1000000 else 0
  | none => 0

/-- The raw price chain
`safeGet(t, ['TENDER_AWARD_PRICE']) || safeGet(t, ['AWARD_PRICE']) || ''`. -/
def priceChainOf (tender : JSVal) : JSVal :=
  jsOr (jsOr (safeGet tender ["TENDER_AWARD_PRICE"]) (safeGet tender ["AWARD_PRICE"]))
    (.vstr "")

/-- One element of `rawRows`. -/
structure RawRow where
  sourceFile : String
  tenderNo : JSVal
  tenderName : JSVal
  orgName : JSVal
  bidderName : JSVal
  awardDate : JSVal
  awardPrice : Option ℚ
  awardPriceMillion : ℚ

/-- Field normalization for one tender record (ordered fallback keys,
price coercion, and the 6-decimal rounding of the row-level
price-in-millions; `Number.isFinite(priceMillion)` always holds in the
rational model, so the `toFixed(6)` branch is taken). -/
def normalizeRow (fileName : String) (tender : JSVal) : RawRow :=
  let bidderName := jsOr (safeGet tender ["BIDDER_LIST", "BIDDER_SUPP_NAME"]) (.vstr "")
  let awardDate :=
    jsOr (jsOr (safeGet tender ["AWARD_NOTICE_DATE"]) (safeGet tender ["AWARD_DATE"]))
      (.vstr "")
  let tenderNo := jsOr (safeGet tender ["TENDER_NO"]) (.vstr "")
  let tenderName := jsOr (safeGet tender ["TENDER_NAME"]) (.vstr "")
  let orgName :=
    jsOr (jsOr (jsOr (safeGet tender ["ORG_NAME"]) (safeGet tender ["PROCURING_ENTITY_NAME"]))
      (safeGet tender ["PROCURING_ENTITY"])) (.vstr "")
  let price := jsPrice (stripCommas (jsToString (priceChainOf tender)))
  { sourceFile := fileName
    tenderNo := tenderNo
    tenderName := tenderName
    orgName := orgName
    bidderName := bidderName
    awardDate := awardDate
    awardPrice := price
    awardPriceMillion := jsToFixed 6 (jsPriceMillion price) }

/-- A summary row derived from one bidder-map entry (1-decimal rounding
of both money figures; `info.latestDate || ''` is `info.latestDate`
itself since the recorded latest date is already a string). -/
structure SummaryRow where
  companyName : String
  awardNoticeDate : String
  latestPriceMillion : ℚ
  cumulativeCount : Nat
  cumulativeSumMillion : ℚ
deriving DecidableEq, Repr

/-- Body of `Object.entries(bidderMap).map(([name, info]) => ...)`. -/
def mkSummaryRow (name : String) (info : BidderInfo) : SummaryRow :=
  { companyName := name
    awardNoticeDate := info.latestDate
    latestPriceMillion := jsToFixed 1 info.latestPriceMillion
    cumulativeCount := info.count
    cumulativeSumMillion := jsToFixed 1 info.sumMillion }

/-! ## Summary sorting (`summaryRows.sort((a, b) => new Date(b.awardNoticeDate) - new Date(a.awardNoticeDate))`)

`Array.prototype.sort` (ECMAScript): the result is a permutation of the
input; `SortCompare` turns a `NaN` comparator value into `+0`; when the
comparator is a *consistent comparator* the result is sorted with
respect to it, otherwise the sort order is implementation-defined.
`jsSortedResult` models exactly this contract (stability is omitted —
the claim itself declares intra-tie order unspecified). -/
/-- Sign of the comparator
`(a, b) => new Date(b.awardNoticeDate) - new Date(a.awardNoticeDate)`
after `SortCompare` (`NaN` difference becomes `+0`). -/
def summaryCmp (dv : String → Option Int) (a b : SummaryRow) : Int :=
  match dv b.awardNoticeDate, dv a.awardNoticeDate with
  | some xb, some xa => if xb > xa then 1 else if xb < xa then -1 else 0
  | _, _ => 0

/-- A consistent comparator on the elements of `l` (total preorder:
totality and transitivity of `c · · ≤ 0`). -/
def ConsistentOn (c : SummaryRow → SummaryRow → Int) (l : List SummaryRow) : Prop :=
  (∀ a ∈ l, ∀ b ∈ l, c a b ≤ 0 ∨ c b a ≤ 0) ∧
  (∀ a ∈ l, ∀ b ∈ l, ∀ d ∈ l, c a b ≤ 0 → c b d ≤ 0 → c a d ≤ 0)

/-- The ECMAScript contract of `l.sort(c)` producing `out`. -/
def jsSortedResult (c : SummaryRow → SummaryRow → Int) (l out : List SummaryRow) : Prop :=
  l.Perm out ∧ (ConsistentOn c l → out.Pairwise (fun a b => c a b ≤ 0))

/-- Row `b`'s date value is at most `a`'s, whenever both parse. -/
def descPairB (dv : String → Option Int) (a b : SummaryRow) : Bool :=
  match dv a.awardNoticeDate, dv b.awardNoticeDate with
  | some xa, some xb => decide (xb ≤ xa)
  | _, _ => true

/-- If `a`'s date does not parse, neither does any later `b`'s (i.e.
unparseable dates sit after every parseable one). -/
def emptiesLastB (dv : String → Option Int) (a b : SummaryRow) : Bool :=
  match dv a.awardNoticeDate with
  | none => (dv b.awardNoticeDate).isNone
  | some _ => true

/-- The order claimed by the spec: descending by date with
empty/unparseable dates last. -/
def claimedSummaryOrder (dv : String → Option Int) (out : List SummaryRow) : Prop :=
  out.Pairwise (fun a b => descPairB dv a b = true) ∧
  out.Pairwise (fun a b => emptiesLastB dv a b = true)

instance (c : SummaryRow → SummaryRow → Int) (l : List SummaryRow) :
    Decidable (ConsistentOn c l) := by
  unfold ConsistentOn
  exact inferInstance

instance (dv : String → Option Int) (out : List SummaryRow) :
    Decidable (claimedSummaryOrder dv out) := by
  unfold claimedSummaryOrder
  exact inferInstance

instance (c : SummaryRow → SummaryRow → Int) (l out : List SummaryRow) :
    Decidable (jsSortedResult c l out) := by
  unfold jsSortedResult
  exact inferInstance

/-- Date valuation for the C4 scenario: two parseable dates, the empty
string (an `Invalid Date`) stays `none`. -/
def c4Dv : String → Option Int := fun s =>
  if s = "2024-01-02" then some 2 else if s = "2024-01-01" then some 1 else none

/-- Summary rows for the C4 counterexample: an older dated row, an
empty-dated row, a newer dated row — in that input order. -/
def c4Rows : List SummaryRow :=
  [⟨"乙公司", "2024-01-01", 1, 1, 1⟩, ⟨"丙公司", "", 2, 1, 2⟩, ⟨"甲公司", "2024-01-02", 3, 1, 3⟩]

/-- Input rows for the C4 amended-claim witness (all dates parseable). -/
def c4SortIn : List SummaryRow :=
  [⟨"乙公司", "2024-01-01", 1, 1, 1⟩, ⟨"甲公司", "2024-01-02", 3, 1, 3⟩]

/-- A conforming (sorted) output for `c4SortIn`. -/
def c4SortOut : List SummaryRow :=
  [⟨"甲公司", "2024-01-02", 3, 1, 3⟩, ⟨"乙公司", "2024-01-01", 1, 1, 1⟩]

/-! ## Tender extraction (`extractTenders`) -/
/-- Collection of a `TENDER` value: a list contributes its elements, a
single truthy value contributes itself (the walk does not descend into
it). -/
def tenderHit : JSVal → List JSVal
  | .varr l => l
  | v => if jsTruthy v then [v] else []

mutual

/-- The recursive `walk` of `extractTenders`: arrays are walked
element-wise, objects key-wise; primitives and falsy nodes contribute
nothing. -/
def extractWalk : JSVal → List JSVal
  | .varr elems => extractElems elems
  | .vobj fields => extractFields fields
  | _ => []

/-- Walk over an object's entries: a `TENDER` key collects its value,
any other key is recursed into. -/
def extractFields : List (String × JSVal) → List JSVal
  | [] => []
  | (k, v) :: rest =>
      (if k = "TENDER" then tenderHit v else extractWalk v) ++ extractFields rest

/-- Walk over an array's elements. -/
def extractElems : List JSVal → List JSVal
  | [] => []
  | v :: rest => extractWalk v ++ extractElems rest

end

/-- Extraction `extractTenders`: walk the whole tree, then `filter(Boolean)`. -/
def extractTenders (v : JSVal) : List JSVal :=
  (extractWalk v).filter jsTruthy

/-! ## Job driver (`generateJob` and the `/generate` catch) -/
/-- Outcome of fetching + parsing one file, as the driver observes it
(`downloadAwardXml` and `xml2js.parseStringPromise` are runtime /
network effects, abstracted as an oracle from file name to outcome). -/
inductive FetchResult where
  | fetchFail
  | parseFail
  | ok (xmlObj : JSVal)

/-- The extracted-record count recorded for a file (0 on failure). -/
def fileCount (oracle : String → FetchResult) (fileName : String) : Nat :=
  match oracle fileName with
  | .ok xmlObj => (extractTenders xmlObj).length
  | _ => 0

/-- The progress message recorded for a file. -/
def fileMsg (oracle : String → FetchResult) (fileName : String) : String :=
  match oracle fileName with
  | .fetchFail => "下載失敗：" ++ fileName
  | .parseFail => "解析失敗：" ++ fileName
  | .ok _ => ""

/-- The in-flight accumulators of `generateJob`: `jsonRecords`,
`rawRows`, and the bidder map together with its key insertion order
(`Object.entries` enumerates string keys in insertion order). -/
structure JobAccum where
  jsonRecords : List (String × JSVal)
  rawRows : List RawRow
  bidderKeys : List String
  bidderMap : String → Option BidderInfo

/-- The accumulators at the start of a job. -/
def emptyAccum : JobAccum := ⟨[], [], [], fun _ => none⟩

/-- Processing of one tender record: push the JSON record and the
normalized row, and fold the bidder aggregate when the bidder name is
truthy (the map key is the name's string coercion). -/
def processTender (dv : String → Option Int) (fileName : String)
    (acc : JobAccum) (tender : JSVal) : JobAccum :=
  let row := normalizeRow fileName tender
  let key := jsToString row.bidderName
  let aggRow : AggRow := ⟨key, jsToString row.awardDate, jsPriceMillion row.awardPrice⟩
  { jsonRecords := acc.jsonRecords ++ [(fileName, tender)]
    rawRows := acc.rawRows ++ [row]
    bidderKeys :=
      if jsTruthy row.bidderName ∧ (acc.bidderMap key).isNone then acc.bidderKeys ++ [key]
      else acc.bidderKeys
    bidderMap :=
      if jsTruthy row.bidderName then
        fun name =>
          if name = key then some (updateBidder dv ((acc.bidderMap key).getD initInfo) aggRow)
          else acc.bidderMap name
      else acc.bidderMap }

/-- One iteration of the per-file loop: a fetch or parse failure is
caught locally and recorded as a single zero-count progress update with
a failure message, then the loop continues; a success extracts, folds
every tender into the accumulators, and records the extracted count. -/
def fileStep (dv : String → Option Int) (oracle : String → FetchResult)
    (st : Progress × JobAccum) (fileName : String) : Progress × JobAccum :=
  match oracle fileName with
  | .fetchFail => (updateProgress st.1 fileName 0 ("下載失敗：" ++ fileName), st.2)
  | .parseFail => (updateProgress st.1 fileName 0 ("解析失敗：" ++ fileName), st.2)
  | .ok xmlObj =>
      let tenders := extractTenders xmlObj
      (updateProgress st.1 fileName tenders.length "",
        tenders.foldl (processTender dv fileName) st.2)

/-- The summary rows derived from the bidder map in key insertion order
(the subsequent sort is a permutation, so row counts are unaffected;
its order is covered by the sorting theorems). -/
def summaryRowsOf (acc : JobAccum) : List SummaryRow :=
  acc.bidderKeys.map (fun name => mkSummaryRow name ((acc.bidderMap name).getD initInfo))

/-- Token derivation `fileNameToToken`: strip a leading `award_` and a trailing
(case-insensitive) `.xml`. -/
def fileNameToToken (s : String) : String :=
  let cs := s.toList
  let cs1 := if cs.take 6 = "award_".toList then cs.drop 6 else cs
  let cs2 :=
    if (cs1.reverse.take 4).map Char.toLower = ['l', 'm', 'x', '.'] then
      cs1.take (cs1.length - 4)
    else cs1
  String.mk cs2

/-- Insertion into an ascending list of tokens. -/
def insertSorted (x : String) : List String → List String
  | [] => [x]
  | y :: ys => if x ≤ y then x :: y :: ys else y :: insertSorted x ys

/-- Sorting `.sort()` with the default comparator on the (ASCII) tokens:
ascending lexicographic order; equal tokens are identical strings, so
any stable/unstable order difference is unobservable. -/
def sortTokens (l : List String) : List String := l.foldr insertSorted []

/-- The body of `generateJob` after the period resolution, plus the
catch of `/generate`: reset the progress state, run the per-file loop,
then either the successful emission epilogue or — when writing the
JSON / workbook / history files fails with message `msg` — the job-level
catch (`emitFail = some msg`), which marks the job failed with the
exception's message (falling back to `產生失敗` for an empty one). -/
def runJobFiles (dv : String → Option Int) (oracle : String → FetchResult)
    (emitFail : Option String) (now : Nat) (files : List String) : Progress × JobAccum :=
  let p0 := resetProgress files.length
  let st := files.foldl (fileStep dv oracle) (p0, emptyAccum)
  match emitFail with
  | some msg =>
      ({ st.1 with
          complete := true
          error := true
          message := if msg ≠ "" then msg else "產生失敗" }, st.2)
  | none =>
      let tokens := (files.map fileNameToToken).filter (fun t => decide (t ≠ ""))
      let sorted := sortTokens tokens
      let startToken := sorted.headD ("report_" ++ toString now)
      let endToken := sorted.getLastD startToken
      let base := startToken ++ "_" ++ endToken
      let nSummary := (summaryRowsOf st.2).length
      let nRaw := st.2.rawRows.length
      ({ st.1 with
          complete := true
          error := false
          percent := 100
          reportFile := base ++ ".xlsx"
          summaryRowCount := nSummary
          rawRowCount := nRaw
          message := "完成：" ++ base ++ ".xlsx（Summary " ++ toString nSummary ++
            " / Raw " ++ toString nRaw ++ "）" }, st.2)

/-- Job `generateJob(startDate, endDate)` driven by the `/generate`
handler; `now` abstracts `Date.now()` for the empty-token fallback. -/
def runJob (dv : String → Option Int) (oracle : String → FetchResult)
    (emitFail : Option String) (now : Nat) (s e : Option CalDate) : Progress × JobAccum :=
  runJobFiles dv oracle emitFail now (buildFileList s e)

/-- Oracle for the C7 witness: first half of January fails to download,
second half succeeds with one tender, anything else fails to parse. -/
def c7Oracle : String → FetchResult := fun f =>
  if f = "award_20240101.xml" then .fetchFail
  else if f = "award_20240102.xml" then
    .ok (.vobj [("TENDER", .vobj [("TENDER_NO", .vstr "1")])])
  else .parseFail

/-! ## History update (lines 289–306 of `server.js`) -/
/-- The on-disk state of `reports/history.json` as the read observes
it: absent, unparseable (`JSON.parse` throws), or some parsed JSON
value. -/
inductive HistoryFileState where
  | missing
  | corrupt
  | json (v : JSVal)

/-- The tolerant history read: a missing file, corrupt contents, or
non-array JSON all become the empty list, without raising. -/
def readHistory : HistoryFileState → List JSVal
  | .missing => []
  | .corrupt => []
  | .json v =>
      match v with
      | .varr l => l
      | _ => []

/-- Prepend `history.unshift(entry)` followed by writing the full list back:
the written contents are the new entry prepended to whatever the read
produced. -/
def updateHistory (st : HistoryFileState) (entry : JSVal) : List JSVal :=
  entry :: readHistory st

/-! ## Theorems -/

theorem monthFirst_lt_succ (t : Int) : monthFirst t < monthFirst (t + 1) := by
  have h : t % 12 = 0 ∨ t % 12 = 1 ∨ t % 12 = 2 ∨ t % 12 = 3 ∨
      t % 12 = 4 ∨ t % 12 = 5 ∨ t % 12 = 6 ∨ t % 12 = 7 ∨
      t % 12 = 8 ∨ t % 12 = 9 ∨ t % 12 = 10 ∨ t % 12 = 11 := by
    omega
  simp only [monthFirst, rataDie]
  rcases h with h | h | h | h | h | h | h | h | h | h | h | h <;> omega

/-- Construction `new Date(y, mIdx, d)` with `y, mIdx` the year and month index of
linear month `t` is day `d` of month `t` (day-offset arithmetic). -/
theorem jsMakeDay_eq (t d : Int) : jsMakeDay (t / 12) (t % 12) d = monthFirst t + (d - 1) := by
  unfold jsMakeDay
  have h : t / 12 * 12 + t % 12 = t := by omega
  rw [h]

theorem mem_insertUnique {l : List String} {x fn : String}
    (h : fn ∈ insertUnique l x) : fn ∈ l ∨ fn = x := by
  unfold insertUnique at h
  by_cases hx : x ∈ l
  · simp [hx] at h
    exact Or.inl h
  · simp [hx] at h
    rcases h with h | h
    · exact Or.inl h
    · exact Or.inr h

theorem insertUnique_nodup {l : List String} {x : String}
    (h : l.Nodup) : (insertUnique l x).Nodup := by
  unfold insertUnique
  by_cases hx : x ∈ l
  · simpa [hx] using h
  · simp only [hx, if_false, ite_false]
    exact List.Nodup.append h (List.nodup_singleton x) (by simpa using hx)

theorem jsMakeDay_eq_succ (t d : Int) :
    jsMakeDay (t / 12) (t % 12 + 1) d = monthFirst (t + 1) + (d - 1) := by
  unfold jsMakeDay
  have h : t / 12 * 12 + (t % 12 + 1) = t + 1 := by omega
  rw [h]

/-- Every name added by one loop iteration passed the overlap test for
its own half-month interval. -/
theorem stepMonth_inv (P : String → Prop) (sN eN t : Int) (acc : List String)
    (hnew : ∀ sec, rangesOverlap sN eN (halfStart t sec) (halfEnd t sec) = true →
      P (awardName t sec))
    (hacc : ∀ fn ∈ acc, P fn) :
    ∀ fn ∈ stepMonth sN eN t acc, P fn := by
  unfold stepMonth
  have e1 : jsMakeDay (t / 12) (t % 12) 1 = halfStart t false := by
    rw [jsMakeDay_eq]; unfold halfStart; simp
  have e15 : jsMakeDay (t / 12) (t % 12) 15 = halfEnd t false := by
    rw [jsMakeDay_eq]; unfold halfEnd; norm_num
  have e16 : jsMakeDay (t / 12) (t % 12) 16 = halfStart t true := by
    rw [jsMakeDay_eq]; unfold halfStart; norm_num
  have e0 : jsMakeDay (t / 12) (t % 12 + 1) 0 = halfEnd t true := by
    rw [jsMakeDay_eq_succ]; unfold halfEnd; norm_num; ring
  rw [e1, e15, e16, e0]
  intro fn hfn
  by_cases h2 : rangesOverlap sN eN (halfStart t true) (halfEnd t true) = true
  · rw [if_pos h2] at hfn
    rcases mem_insertUnique hfn with hfn1 | rfl
    · by_cases h1 : rangesOverlap sN eN (halfStart t false) (halfEnd t false) = true
      · rw [if_pos h1] at hfn1
        rcases mem_insertUnique hfn1 with hfn0 | rfl
        · exact hacc _ hfn0
        · exact hnew false h1
      · rw [if_neg h1] at hfn1
        exact hacc _ hfn1
    · exact hnew true h2
  · rw [if_neg h2] at hfn
    by_cases h1 : rangesOverlap sN eN (halfStart t false) (halfEnd t false) = true
    · rw [if_pos h1] at hfn
      rcases mem_insertUnique hfn with hfn0 | rfl
      · exact hacc _ hfn0
      · exact hnew false h1
    · rw [if_neg h1] at hfn
      exact hacc _ hfn

theorem stepMonth_nodup (sN eN t : Int) (acc : List String)
    (h : acc.Nodup) : (stepMonth sN eN t acc).Nodup := by
  unfold stepMonth
  by_cases h2 : rangesOverlap sN eN (jsMakeDay (t / 12) (t % 12) 16)
      (jsMakeDay (t / 12) (t % 12 + 1) 0) = true <;>
    by_cases h1 : rangesOverlap sN eN (jsMakeDay (t / 12) (t % 12) 1)
        (jsMakeDay (t / 12) (t % 12) 15) = true <;>
      simp only [h1, h2, if_pos, if_neg, ite_true, ite_false] <;>
        first
          | exact insertUnique_nodup (insertUnique_nodup h)
          | exact insertUnique_nodup h
          | exact h

/-- Loop invariant: every name accumulated by `buildLoop` either was in
the accumulator or is an `awardName` whose half-interval passed the
overlap test. -/
theorem buildLoop_inv (P : String → Prop) (sN eN : Int)
    (hnew : ∀ t sec, rangesOverlap sN eN (halfStart t sec) (halfEnd t sec) = true →
      P (awardName t sec)) :
    ∀ t acc, (∀ fn ∈ acc, P fn) → ∀ fn ∈ buildLoop sN eN t acc, P fn := by
  intro t acc
  induction t, acc using buildLoop.induct sN eN with
  | case1 t acc h ih =>
      intro hacc
      rw [buildLoop, dif_pos h]
      exact ih (stepMonth_inv P sN eN t acc (fun sec => hnew t sec) hacc)
  | case2 t acc h =>
      intro hacc
      rw [buildLoop, dif_neg h]
      exact hacc

theorem buildFileList_red (sd ed : CalDate) :
    buildFileList (some sd) (some ed) =
      if dateNum sd > dateNum ed then []
      else buildLoop (dateNum sd) (dateNum ed) (monthLin sd) [] := rfl

theorem buildLoop_nodup (sN eN : Int) :
    ∀ t acc, acc.Nodup → (buildLoop sN eN t acc).Nodup := by
  intro t acc
  induction t, acc using buildLoop.induct sN eN with
  | case1 t acc h ih =>
      intro hacc
      rw [buildLoop, dif_pos h]
      exact ih (stepMonth_nodup sN eN t acc hacc)
  | case2 t acc h =>
      intro hacc
      rw [buildLoop, dif_neg h]
      exact hacc

/-- C2: for every parseable, non-inverted date range, every FileId
emitted by the period resolver is an `awardName` whose half-month
interval (days 1–15, or day 16 through end of month) passes the
inclusive overlap test `aStart ≤ bEnd ∧ bStart ≤ aEnd` against
`[start, end]`, and no FileId appears twice in the output sequence. -/
theorem buildFileList_overlap_nodup (sd ed : CalDate)
    (hrange : dateNum sd ≤ dateNum ed) :
    (∀ fn ∈ buildFileList (some sd) (some ed),
      ∃ t sec, fn = awardName t sec ∧
        rangesOverlap (dateNum sd) (dateNum ed) (halfStart t sec) (halfEnd t sec) = true) ∧
    (buildFileList (some sd) (some ed)).Nodup := by
  rw [buildFileList_red, if_neg (by omega : ¬dateNum sd > dateNum ed)]
  constructor
  · exact buildLoop_inv _ _ _ (fun t sec h => ⟨t, sec, rfl, h⟩) _ [] (by simp)
  · exact buildLoop_nodup _ _ _ [] List.nodup_nil

/-- Witness for C2 at the concrete range 2024-01-03 … 2024-01-10. -/
theorem buildFileList_overlap_nodup_witness :
    dateNum ⟨2024, 1, 3⟩ ≤ dateNum ⟨2024, 1, 10⟩ ∧
    ((∀ fn ∈ buildFileList (some ⟨2024, 1, 3⟩) (some ⟨2024, 1, 10⟩),
      ∃ t sec, fn = awardName t sec ∧
        rangesOverlap (dateNum ⟨2024, 1, 3⟩) (dateNum ⟨2024, 1, 10⟩)
          (halfStart t sec) (halfEnd t sec) = true) ∧
    (buildFileList (some ⟨2024, 1, 3⟩) (some ⟨2024, 1, 10⟩)).Nodup) :=
  ⟨by decide, buildFileList_overlap_nodup ⟨2024, 1, 3⟩ ⟨2024, 1, 10⟩ (by decide)⟩

/-- C9: `safeGet` is total (it is a total function of this model), it
returns `''` whenever an intermediate value on the path is `null`,
`undefined`, or not an object, and it returns `''` in place of a
`null`/`undefined` final value; otherwise it returns the value reached
by following the path. -/
theorem safeGet_total_empty_on_bad (obj : JSVal) (path : List String) :
    safeGet obj path =
      if hasBadHop obj path then JSVal.vstr ""
      else
        match path.foldl jsIndex obj with
        | .vnull => .vstr ""
        | .vundefined => .vstr ""
        | v => v := by
  induction path generalizing obj with
  | nil => simp [safeGet, hasBadHop]
  | cons k ks ih =>
      by_cases hb : badNode obj = true
      · have hg : (jsTruthy obj && isObjType obj) = false := by
          revert hb; unfold badNode
          cases jsTruthy obj <;> cases isObjType obj <;> simp
        simp [safeGet, hasBadHop, hb, hg]
      · have hg : (jsTruthy obj && isObjType obj) = true := by
          revert hb; unfold badNode
          cases jsTruthy obj <;> cases isObjType obj <;> simp
        have hb0 : badNode obj = false := by simpa using hb
        simp [safeGet, hasBadHop, hb0, hg, ih]

/-- C10: a progress update with an empty message leaves the message
unchanged (so an earlier failure message persists through any sequence
of later empty-message updates), while `current`, `labels`, `counts`
and `percent` are still updated; the message changes exactly when a
non-empty message is supplied. -/
theorem updateProgress_message_frame (p : Progress) (l : String) (c : Nat) :
    ((updateProgress p l c "").message = p.message ∧
      (updateProgress p l c "").current = p.current + 1 ∧
      (updateProgress p l c "").labels = p.labels ++ [l] ∧
      (updateProgress p l c "").counts = p.counts ++ [c] ∧
      (updateProgress p l c "").percent = percentOf (p.current + 1) p.total) ∧
    (∀ m : String, m ≠ "" → (updateProgress p l c m).message = m) ∧
    (∀ evs : List (String × Nat),
      ((evs.foldl (fun q e => updateProgress q e.1 e.2 "") p)).message = p.message) := by
  refine ⟨⟨?_, rfl, rfl, rfl, rfl⟩, ?_, ?_⟩
  · simp [updateProgress]
  · intro m hm
    simp [updateProgress, hm]
  · intro evs
    induction evs generalizing p with
    | nil => rfl
    | cons e evs ih =>
        simpa [updateProgress] using ih (updateProgress p e.1 e.2 "")

/-- Witness for C10 at a concrete progress state. -/
theorem updateProgress_message_frame_witness :
    (updateProgress (resetProgress 3) "award_20240101.xml" 0 "").message =
      (resetProgress 3).message ∧
    ("下載失敗" ≠ "" ∧
      (updateProgress (resetProgress 3) "award_20240101.xml" 0 "下載失敗").message = "下載失敗") :=
  ⟨(updateProgress_message_frame (resetProgress 3) "award_20240101.xml" 0).1.1,
    by decide,
    (updateProgress_message_frame (resetProgress 3) "award_20240101.xml" 0).2.1
      "下載失敗" (by decide)⟩

/-- The latest pair after an update is either the row's pair (when the
update condition fired) or unchanged. -/
theorem updateBidder_latest_char (dv : String → Option Int) (i : BidderInfo) (r : AggRow) :
    ((updateBidder dv i r).latestDate, (updateBidder dv i r).latestPriceMillion) =
      if r.awardDate ≠ "" ∧ (i.latestDate = "" ∨ jsDateGt dv r.awardDate i.latestDate = true)
      then (r.awardDate, r.priceMillion)
      else (i.latestDate, i.latestPriceMillion) := by
  unfold updateBidder
  split <;> rfl

theorem dvUB_cons {dv : String → Option Int} {r : AggRow} {l : List AggRow} {v : Int}
    (hr : r.awardDate ≠ "" → ∀ u, dv r.awardDate = some u → u ≤ v)
    (hl : dvUB dv l v) : dvUB dv (r :: l) v := by
  intro r' hr' hne u hu
  rcases List.mem_cons.mp hr' with rfl | hmem
  · exact hr hne u hu
  · exact hl r' hmem hne u hu

theorem dvAtt_cons {dv : String → Option Int} {r : AggRow} {l : List AggRow} {v : Int}
    {j : BidderInfo} (h : dvAtt dv l v j) : dvAtt dv (r :: l) v j := by
  rcases h with ⟨r', hmem, hne, hdate, hdv, hp⟩
  exact ⟨r', List.mem_cons_of_mem r hmem, hne, hdate, hdv, hp⟩

/-- Folding `updateBidder` from an entry that already records a
parseable latest date: the recorded value only grows, stays an upper
bound of the dated rows, and the final pair is either untouched or
attained by a dated row of the list. -/
theorem foldl_updateBidder_dated (dv : String → Option Int) :
    ∀ (l : List AggRow) (i : BidderInfo) (v0 : Int),
      (∀ r ∈ l, r.awardDate ≠ "" → (dv r.awardDate).isSome) →
      i.latestDate ≠ "" → dv i.latestDate = some v0 →
      ∃ v, (l.foldl (updateBidder dv) i).latestDate ≠ "" ∧
        dv (l.foldl (updateBidder dv) i).latestDate = some v ∧ v0 ≤ v ∧
        dvUB dv l v ∧
        (((l.foldl (updateBidder dv) i).latestDate = i.latestDate ∧
          (l.foldl (updateBidder dv) i).latestPriceMillion = i.latestPriceMillion ∧ v = v0) ∨
         dvAtt dv l v (l.foldl (updateBidder dv) i)) := by
  intro l
  induction l with
  | nil =>
      intro i v0 _ hne hdv
      exact ⟨v0, hne, hdv, le_refl v0, fun r hr => absurd hr (List.not_mem_nil r),
        Or.inl ⟨rfl, rfl, rfl⟩⟩
  | cons r l ih =>
      intro i v0 hparse hne hdv
      have hparse' : ∀ r' ∈ l, r'.awardDate ≠ "" → (dv r'.awardDate).isSome :=
        fun r' h => hparse r' (List.mem_cons_of_mem r h)
      by_cases hd : r.awardDate = ""
      · have hcond : ¬(r.awardDate ≠ "" ∧
            (i.latestDate = "" ∨ jsDateGt dv r.awardDate i.latestDate = true)) := by
          intro h; exact h.1 hd
        have hchar := updateBidder_latest_char dv i r
        rw [if_neg hcond] at hchar
        have hld : (updateBidder dv i r).latestDate = i.latestDate :=
          congrArg Prod.fst hchar
        have hlp : (updateBidder dv i r).latestPriceMillion = i.latestPriceMillion :=
          congrArg Prod.snd hchar
        rcases ih (updateBidder dv i r) v0 hparse' (by rw [hld]; exact hne)
            (by rw [hld]; exact hdv) with ⟨v, h1, h2, h3, h4, h5⟩
        refine ⟨v, by simpa using h1, by simpa using h2, h3,
          dvUB_cons (fun hne' => absurd hd hne') h4, ?_⟩
        rcases h5 with ⟨ha, hb, hc⟩ | hatt
        · exact Or.inl ⟨by rw [List.foldl_cons, ha, hld], by rw [List.foldl_cons, hb, hlp], hc⟩
        · exact Or.inr (dvAtt_cons (by simpa using hatt))
      · rcases Option.isSome_iff_exists.mp (hparse r (List.mem_cons_self r l) hd) with ⟨u, hu⟩
        by_cases hgt : jsDateGt dv r.awardDate i.latestDate = true
        · have huv : v0 < u := by
            unfold jsDateGt at hgt
            rw [hu, hdv] at hgt
            simpa using hgt
          have hcond : r.awardDate ≠ "" ∧
              (i.latestDate = "" ∨ jsDateGt dv r.awardDate i.latestDate = true) :=
            ⟨hd, Or.inr hgt⟩
          have hchar := updateBidder_latest_char dv i r
          rw [if_pos hcond] at hchar
          have hld : (updateBidder dv i r).latestDate = r.awardDate :=
            congrArg Prod.fst hchar
          have hlp : (updateBidder dv i r).latestPriceMillion = r.priceMillion :=
            congrArg Prod.snd hchar
          rcases ih (updateBidder dv i r) u hparse' (by rw [hld]; exact hd)
              (by rw [hld]; exact hu) with ⟨v, h1, h2, h3, h4, h5⟩
          refine ⟨v, by simpa using h1, by simpa using h2, le_of_lt (lt_of_lt_of_le huv h3),
            dvUB_cons (fun _ u' hu' => by
              rw [hu] at hu'
              exact (Option.some.injEq u u').mp hu' ▸ h3) h4, Or.inr ?_⟩
          rcases h5 with ⟨ha, hb, hc⟩ | hatt
          · refine ⟨r, List.mem_cons_self r l, hd, ?_, ?_, ?_⟩
            · rw [List.foldl_cons, ha, hld]
            · rw [hu, hc]
            · rw [List.foldl_cons, hb, hlp]
          · exact dvAtt_cons (by simpa using hatt)
        · have hule : u ≤ v0 := by
            unfold jsDateGt at hgt
            rw [hu, hdv] at hgt
            simpa using hgt
          have hcond : ¬(r.awardDate ≠ "" ∧
              (i.latestDate = "" ∨ jsDateGt dv r.awardDate i.latestDate = true)) := by
            intro h
            rcases h.2 with h2 | h2
            · exact hne h2
            · exact hgt h2
          have hchar := updateBidder_latest_char dv i r
          rw [if_neg hcond] at hchar
          have hld : (updateBidder dv i r).latestDate = i.latestDate :=
            congrArg Prod.fst hchar
          have hlp : (updateBidder dv i r).latestPriceMillion = i.latestPriceMillion :=
            congrArg Prod.snd hchar
          rcases ih (updateBidder dv i r) v0 hparse' (by rw [hld]; exact hne)
              (by rw [hld]; exact hdv) with ⟨v, h1, h2, h3, h4, h5⟩
          refine ⟨v, by simpa using h1, by simpa using h2, h3,
            dvUB_cons (fun _ u' hu' => by
              rw [hu] at hu'
              exact (Option.some.injEq u u').mp hu' ▸ le_trans hule h3) h4, ?_⟩
          rcases h5 with ⟨ha, hb, hc⟩ | hatt
          · exact Or.inl ⟨by rw [List.foldl_cons, ha, hld],
              by rw [List.foldl_cons, hb, hlp], hc⟩
          · exact Or.inr (dvAtt_cons (by simpa using hatt))

/-- Folding `updateBidder` from an entry with no recorded latest date:
either no row is dated and the latest pair stays untouched, or the final
latest value bounds all dated rows and is attained by one of them. -/
theorem foldl_updateBidder_empty (dv : String → Option Int) :
    ∀ (l : List AggRow) (i : BidderInfo),
      (∀ r ∈ l, r.awardDate ≠ "" → (dv r.awardDate).isSome) →
      i.latestDate = "" →
      ((∀ r ∈ l, r.awardDate = "") ∧
        (l.foldl (updateBidder dv) i).latestDate = "" ∧
        (l.foldl (updateBidder dv) i).latestPriceMillion = i.latestPriceMillion) ∨
      (∃ v, (l.foldl (updateBidder dv) i).latestDate ≠ "" ∧
        dv (l.foldl (updateBidder dv) i).latestDate = some v ∧
        dvUB dv l v ∧ dvAtt dv l v (l.foldl (updateBidder dv) i)) := by
  intro l
  induction l with
  | nil =>
      intro i _ hi
      exact Or.inl ⟨fun r hr => absurd hr (List.not_mem_nil r), hi, rfl⟩
  | cons r l ih =>
      intro i hparse hi
      have hparse' : ∀ r' ∈ l, r'.awardDate ≠ "" → (dv r'.awardDate).isSome :=
        fun r' h => hparse r' (List.mem_cons_of_mem r h)
      by_cases hd : r.awardDate = ""
      · have hcond : ¬(r.awardDate ≠ "" ∧
            (i.latestDate = "" ∨ jsDateGt dv r.awardDate i.latestDate = true)) := by
          intro h; exact h.1 hd
        have hchar := updateBidder_latest_char dv i r
        rw [if_neg hcond] at hchar
        have hld : (updateBidder dv i r).latestDate = i.latestDate :=
          congrArg Prod.fst hchar
        have hlp : (updateBidder dv i r).latestPriceMillion = i.latestPriceMillion :=
          congrArg Prod.snd hchar
        rcases ih (updateBidder dv i r) hparse' (by rw [hld]; exact hi) with
          ⟨hall, h1, h2⟩ | ⟨v, h1, h2, h3, h4⟩
        · refine Or.inl ⟨?_, by simpa using h1, ?_⟩
          · intro r' hr'
            rcases List.mem_cons.mp hr' with rfl | hmem
            · exact hd
            · exact hall r' hmem
          · rw [List.foldl_cons, h2, hlp]
        · exact Or.inr ⟨v, by simpa using h1, by simpa using h2,
            dvUB_cons (fun hne' => absurd hd hne') h3, dvAtt_cons (by simpa using h4)⟩
      · rcases Option.isSome_iff_exists.mp (hparse r (List.mem_cons_self r l) hd) with ⟨u, hu⟩
        have hcond : r.awardDate ≠ "" ∧
            (i.latestDate = "" ∨ jsDateGt dv r.awardDate i.latestDate = true) :=
          ⟨hd, Or.inl hi⟩
        have hchar := updateBidder_latest_char dv i r
        rw [if_pos hcond] at hchar
        have hld : (updateBidder dv i r).latestDate = r.awardDate :=
          congrArg Prod.fst hchar
        have hlp : (updateBidder dv i r).latestPriceMillion = r.priceMillion :=
          congrArg Prod.snd hchar
        rcases foldl_updateBidder_dated dv l (updateBidder dv i r) u hparse'
            (by rw [hld]; exact hd) (by rw [hld]; exact hu) with ⟨v, h1, h2, h3, h4, h5⟩
        refine Or.inr ⟨v, by simpa using h1, by simpa using h2,
          dvUB_cons (fun _ u' hu' => by
            rw [hu] at hu'
            exact (Option.some.injEq u u').mp hu' ▸ h3) h4, ?_⟩
        rcases h5 with ⟨ha, hb, hc⟩ | hatt
        · refine ⟨r, List.mem_cons_self r l, hd, ?_, ?_, ?_⟩
          · rw [List.foldl_cons, ha, hld]
          · rw [hu, hc]
          · rw [List.foldl_cons, hb, hlp]
        · exact dvAtt_cons (by simpa using hatt)

/-- Reading one bidder off the map fold is the same as folding that
bidder's own rows (rows with other or empty bidder names do not touch
the entry). -/
theorem foldl_bidderStep_apply (dv : String → Option Int) (b : String) (hb : b ≠ "") :
    ∀ (rows : List AggRow) (m : String → Option BidderInfo),
      (rows.foldl (bidderStep dv) m) b =
        (rows.filter (fun r => r.bidderName == b)).foldl
          (fun o r => some (updateBidder dv (o.getD initInfo) r)) (m b) := by
  intro rows
  induction rows with
  | nil => intro m; rfl
  | cons r rows ih =>
      intro m
      rw [List.foldl_cons, ih (bidderStep dv m r), List.filter_cons]
      by_cases hrb : (r.bidderName == b) = true
      · have heq : r.bidderName = b := by simpa using hrb
        have hr0 : ¬r.bidderName = "" := by rw [heq]; exact hb
        rw [if_pos hrb, List.foldl_cons]
        congr 1
        unfold bidderStep
        rw [if_neg hr0]
        simp [heq]
      · have hne : ¬r.bidderName = b := by simpa using hrb
        rw [if_neg hrb]
        congr 1
        unfold bidderStep
        by_cases hr0 : r.bidderName = ""
        · rw [if_pos hr0]
        · rw [if_neg hr0]
          have hbne : ¬b = r.bidderName := fun h => hne h.symm
          simp [hbne]

theorem foldl_optStep_some (dv : String → Option Int) :
    ∀ (l : List AggRow) (i : BidderInfo),
      l.foldl (fun o r => some (updateBidder dv (o.getD initInfo) r)) (some i) =
        some (l.foldl (updateBidder dv) i) := by
  intro l
  induction l with
  | nil => intro i; rfl
  | cons r l ih => intro i; rw [List.foldl_cons, List.foldl_cons]; exact ih (updateBidder dv i r)

/-- C1: for every bidder present in the bidder map after the
aggregation fold (over rows whose non-empty award dates all parse),
`latestDate` carries the maximum award-date value among that bidder's
dated rows and `latestPriceMillion` is the price-in-millions of a row
bearing exactly that recorded date (not a separate maximum); if the
bidder has no dated row the pair stays `("", 0)`; and a row updates the
pair only when its date is non-empty and either no latest date is
recorded yet or its date compares strictly greater. -/
theorem aggregate_latest_max (dv : String → Option Int) (rows : List AggRow) (b : String)
    (hb : b ≠ "")
    (hparse : ∀ r ∈ rows, r.bidderName = b → r.awardDate ≠ "" → (dv r.awardDate).isSome)
    (info : BidderInfo) (hinfo : aggregate dv rows b = some info) :
    ((∀ r ∈ rows, r.bidderName = b → r.awardDate = "") →
      info.latestDate = "" ∧ info.latestPriceMillion = 0) ∧
    (∀ r0 ∈ rows, r0.bidderName = b → r0.awardDate ≠ "" →
      ∃ v, info.latestDate ≠ "" ∧ dv info.latestDate = some v ∧
        (∀ r ∈ rows, r.bidderName = b → r.awardDate ≠ "" →
          ∀ u, dv r.awardDate = some u → u ≤ v) ∧
        (∃ r ∈ rows, r.bidderName = b ∧ r.awardDate = info.latestDate ∧
          dv r.awardDate = some v ∧ r.priceMillion = info.latestPriceMillion)) ∧
    (∀ (i : BidderInfo) (r : AggRow),
      ¬(r.awardDate ≠ "" ∧ (i.latestDate = "" ∨ jsDateGt dv r.awardDate i.latestDate = true)) →
      (updateBidder dv i r).latestDate = i.latestDate ∧
      (updateBidder dv i r).latestPriceMillion = i.latestPriceMillion) := by
  have hproj := foldl_bidderStep_apply dv b hb rows (fun _ => none)
  unfold aggregate at hinfo
  rw [hproj] at hinfo
  have hmem : ∀ r, r ∈ rows.filter (fun r => r.bidderName == b) ↔
      (r ∈ rows ∧ r.bidderName = b) := by
    intro r
    rw [List.mem_filter]
    simp
  have hfr : ∀ (i : BidderInfo) (r : AggRow),
      ¬(r.awardDate ≠ "" ∧ (i.latestDate = "" ∨ jsDateGt dv r.awardDate i.latestDate = true)) →
      (updateBidder dv i r).latestDate = i.latestDate ∧
      (updateBidder dv i r).latestPriceMillion = i.latestPriceMillion := by
    intro i r hcond
    have hchar := updateBidder_latest_char dv i r
    rw [if_neg hcond] at hchar
    exact ⟨congrArg Prod.fst hchar, congrArg Prod.snd hchar⟩
  cases hl : rows.filter (fun r => r.bidderName == b) with
  | nil =>
      rw [hl] at hinfo
      exact absurd hinfo (by simp)
  | cons x xs =>
      rw [hl, List.foldl_cons] at hinfo
      have hx : (some (updateBidder dv ((none : Option BidderInfo).getD initInfo) x)) =
          some (updateBidder dv initInfo x) := rfl
      rw [hx, foldl_optStep_some] at hinfo
      have hinfo' : (x :: xs).foldl (updateBidder dv) initInfo = info := by
        rw [List.foldl_cons]
        exact Option.some.inj hinfo
      have hparse' : ∀ r ∈ x :: xs, r.awardDate ≠ "" → (dv r.awardDate).isSome := by
        intro r hr
        rw [← hl] at hr
        rcases (hmem r).mp hr with ⟨hr1, hr2⟩
        exact hparse r hr1 hr2
      have hA := foldl_updateBidder_empty dv (x :: xs) initInfo hparse' rfl
      rw [hinfo'] at hA
      refine ⟨?_, ?_, hfr⟩
      · intro hall
        rcases hA with ⟨_, h1, h2⟩ | ⟨v, _, _, _, hatt⟩
        · exact ⟨h1, h2⟩
        · rcases hatt with ⟨r, hrmem, hrd, _, _, _⟩
          rw [← hl] at hrmem
          rcases (hmem r).mp hrmem with ⟨hr1, hr2⟩
          exact absurd (hall r hr1 hr2) hrd
      · intro r0 hr0 hr0b hr0d
        rcases hA with ⟨hall, _, _⟩ | ⟨v, h1, h2, hub, hatt⟩
        · have : r0 ∈ x :: xs := by
            rw [← hl]
            exact (hmem r0).mpr ⟨hr0, hr0b⟩
          exact absurd (hall r0 this) hr0d
        · refine ⟨v, h1, h2, ?_, ?_⟩
          · intro r hr hrb hrd u hu
            have : r ∈ x :: xs := by
              rw [← hl]
              exact (hmem r).mpr ⟨hr, hrb⟩
            exact hub r this hrd u hu
          · rcases hatt with ⟨r, hrmem, hrd, hrdate, hrdv, hrp⟩
            rw [← hl] at hrmem
            rcases (hmem r).mp hrmem with ⟨hr1, hr2⟩
            exact ⟨r, hr1, hr2, hrdate, hrdv, hrp⟩

/-- Witness for C1: the aggregation invariant evaluated on concrete rows. -/
theorem aggregate_latest_max_witness :
    ("甲公司" ≠ "") ∧
    (∀ r ∈ c1Rows, r.bidderName = "甲公司" → r.awardDate ≠ "" → (c1Dv r.awardDate).isSome) ∧
    aggregate c1Dv c1Rows "甲公司" = some c1Info ∧
    (((∀ r ∈ c1Rows, r.bidderName = "甲公司" → r.awardDate = "") →
      c1Info.latestDate = "" ∧ c1Info.latestPriceMillion = 0) ∧
    (∀ r0 ∈ c1Rows, r0.bidderName = "甲公司" → r0.awardDate ≠ "" →
      ∃ v, c1Info.latestDate ≠ "" ∧ c1Dv c1Info.latestDate = some v ∧
        (∀ r ∈ c1Rows, r.bidderName = "甲公司" → r.awardDate ≠ "" →
          ∀ u, c1Dv r.awardDate = some u → u ≤ v) ∧
        (∃ r ∈ c1Rows, r.bidderName = "甲公司" ∧ r.awardDate = c1Info.latestDate ∧
          c1Dv r.awardDate = some v ∧ r.priceMillion = c1Info.latestPriceMillion)) ∧
    (∀ (i : BidderInfo) (r : AggRow),
      ¬(r.awardDate ≠ "" ∧
        (i.latestDate = "" ∨ jsDateGt c1Dv r.awardDate i.latestDate = true)) →
      (updateBidder c1Dv i r).latestDate = i.latestDate ∧
      (updateBidder c1Dv i r).latestPriceMillion = i.latestPriceMillion)) := by
  have hagg : aggregate c1Dv c1Rows "甲公司" = some c1Info := by
    simp +decide [aggregate, bidderStep, updateBidder, jsDateGt, initInfo, c1Dv, c1Rows, c1Info]
    norm_num
  exact ⟨by decide, by decide, hagg,
    aggregate_latest_max c1Dv c1Rows "甲公司" (by decide) (by decide) c1Info hagg⟩

theorem jsToFixed_zero (n : Nat) : jsToFixed n 0 = 0 := by
  unfold jsToFixed
  norm_num

/-- C3 counterexample: a tender whose price text is non-empty but
unparseable (`"abc"`) gets `awardPrice = NaN` (`none`), not the numeric
value zero — `Number('abc')` is `NaN` and the code stores it as is —
while `awardPriceMillion` is still zero because `NaN` is falsy. -/
theorem awardPrice_unparseable_not_zero :
    (normalizeRow "award_20240101.xml"
        (.vobj [("TENDER_AWARD_PRICE", .vstr "abc")])).awardPrice ≠ some 0 ∧
    (normalizeRow "award_20240101.xml"
        (.vobj [("TENDER_AWARD_PRICE", .vstr "abc")])).awardPrice = none ∧
    (normalizeRow "award_20240101.xml"
        (.vobj [("TENDER_AWARD_PRICE", .vstr "abc")])).awardPriceMillion = 0 := by
  have hnone : (normalizeRow "award_20240101.xml"
      (.vobj [("TENDER_AWARD_PRICE", .vstr "abc")])).awardPrice = none := by decide
  refine ⟨by rw [hnone]; exact fun h => Option.noConfusion h, hnone, ?_⟩
  have h : (normalizeRow "award_20240101.xml"
      (.vobj [("TENDER_AWARD_PRICE", .vstr "abc")])).awardPriceMillion =
      jsToFixed 6 (jsPriceMillion ((normalizeRow "award_20240101.xml"
        (.vobj [("TENDER_AWARD_PRICE", .vstr "abc")])).awardPrice)) := rfl
  rw [h, hnone]
  exact jsToFixed_zero 6

/-- C3 (amended): price normalization strips commas from the raw price
text and parses the result as a decimal number; an empty (post-strip)
text yields `awardPrice = 0`; a non-empty unparseable text yields
`awardPrice = NaN` (not zero); in both of those cases the row's
`awardPriceMillion` is zero; and a parseable text yields its numeric
value. -/
theorem price_normalization_amended (fileName : String) (tender : JSVal) (p : String)
    (hp : priceChainOf tender = .vstr p) :
    (normalizeRow fileName tender).awardPrice = jsPrice (stripCommas p) ∧
    (stripCommas p = "" →
      (normalizeRow fileName tender).awardPrice = some 0 ∧
      (normalizeRow fileName tender).awardPriceMillion = 0) ∧
    (stripCommas p ≠ "" → jsNumber (stripCommas p) = none →
      (normalizeRow fileName tender).awardPrice = none ∧
      (normalizeRow fileName tender).awardPriceMillion = 0) ∧
    (∀ q : ℚ, jsNumber (stripCommas p) = some q → stripCommas p ≠ "" →
      (normalizeRow fileName tender).awardPrice = some q) := by
  have hprice : (normalizeRow fileName tender).awardPrice =
      jsPrice (stripCommas (jsToString (priceChainOf tender))) := rfl
  have hmill : (normalizeRow fileName tender).awardPriceMillion =
      jsToFixed 6 (jsPriceMillion ((normalizeRow fileName tender).awardPrice)) := rfl
  rw [hp] at hprice
  have hstr : jsToString (JSVal.vstr p) = p := rfl
  rw [hstr] at hprice
  refine ⟨hprice, ?_, ?_, ?_⟩
  · intro hempty
    have h0 : (normalizeRow fileName tender).awardPrice = some 0 := by
      rw [hprice]
      unfold jsPrice
      rw [if_pos hempty]
    refine ⟨h0, ?_⟩
    rw [hmill, h0]
    have : jsPriceMillion (some 0) = 0 := by simp [jsPriceMillion]
    rw [this]
    exact jsToFixed_zero 6
  · intro hne hnan
    have h0 : (normalizeRow fileName tender).awardPrice = none := by
      rw [hprice]
      unfold jsPrice
      rw [if_neg hne]
      exact hnan
    refine ⟨h0, ?_⟩
    rw [hmill, h0]
    exact jsToFixed_zero 6
  · intro q hq hne
    rw [hprice]
    unfold jsPrice
    rw [if_neg hne]
    exact hq

/-- Witness for the amended C3 at the concrete price text `"1,234"`. -/
theorem price_normalization_amended_witness :
    priceChainOf (.vobj [("TENDER_AWARD_PRICE", .vstr "1,234")]) = .vstr "1,234" ∧
    ((normalizeRow "award_20240101.xml"
        (.vobj [("TENDER_AWARD_PRICE", .vstr "1,234")])).awardPrice =
      jsPrice (stripCommas "1,234") ∧
    (stripCommas "1,234" = "" →
      (normalizeRow "award_20240101.xml"
          (.vobj [("TENDER_AWARD_PRICE", .vstr "1,234")])).awardPrice = some 0 ∧
      (normalizeRow "award_20240101.xml"
          (.vobj [("TENDER_AWARD_PRICE", .vstr "1,234")])).awardPriceMillion = 0) ∧
    (stripCommas "1,234" ≠ "" → jsNumber (stripCommas "1,234") = none →
      (normalizeRow "award_20240101.xml"
          (.vobj [("TENDER_AWARD_PRICE", .vstr "1,234")])).awardPrice = none ∧
      (normalizeRow "award_20240101.xml"
          (.vobj [("TENDER_AWARD_PRICE", .vstr "1,234")])).awardPriceMillion = 0) ∧
    (∀ q : ℚ, jsNumber (stripCommas "1,234") = some q → stripCommas "1,234" ≠ "" →
      (normalizeRow "award_20240101.xml"
          (.vobj [("TENDER_AWARD_PRICE", .vstr "1,234")])).awardPrice = some q)) :=
  ⟨rfl, price_normalization_amended "award_20240101.xml"
    (.vobj [("TENDER_AWARD_PRICE", .vstr "1,234")]) "1,234" rfl⟩

/-- C5: the row-level `awardPriceMillion` is the award price divided by
1,000,000 and rounded to 6 decimal places (price `1234567` gives exactly
`1.234567`), while the summary-row `latestPriceMillion` and
`cumulativeSumMillion` are rounded to 1 decimal place. -/
theorem rounding_row_and_summary :
    (∀ (fileName : String) (tender : JSVal) (q : ℚ),
      (normalizeRow fileName tender).awardPrice = some q →
      (normalizeRow fileName tender).awardPriceMillion = jsToFixed 6 (q / 1000000)) ∧
    jsToFixed 6 ((1234567 : ℚ) / 1000000) = 1234567 / 1000000 ∧
    (normalizeRow "award_20240101.xml"
        (.vobj [("TENDER_AWARD_PRICE", .vstr "1234567")])).awardPriceMillion =
      1234567 / 1000000 ∧
    (∀ (name : String) (info : BidderInfo),
      (mkSummaryRow name info).latestPriceMillion = jsToFixed 1 info.latestPriceMillion ∧
      (mkSummaryRow name info).cumulativeSumMillion = jsToFixed 1 info.sumMillion) := by
  have hgen : ∀ (fileName : String) (tender : JSVal) (q : ℚ),
      (normalizeRow fileName tender).awardPrice = some q →
      (normalizeRow fileName tender).awardPriceMillion = jsToFixed 6 (q / 1000000) := by
    intro fileName tender q hq
    have hmill : (normalizeRow fileName tender).awardPriceMillion =
        jsToFixed 6 (jsPriceMillion ((normalizeRow fileName tender).awardPrice)) := rfl
    rw [hmill, hq]
    by_cases h0 : q = 0
    · subst h0
      simp [jsPriceMillion]
    · simp [jsPriceMillion, h0]
  have hfix : jsToFixed 6 ((1234567 : ℚ) / 1000000) = 1234567 / 1000000 := by
    unfold jsToFixed
    norm_num
  refine ⟨hgen, hfix, ?_, fun name info => ⟨rfl, rfl⟩⟩
  have hq : (normalizeRow "award_20240101.xml"
      (.vobj [("TENDER_AWARD_PRICE", .vstr "1234567")])).awardPrice = some 1234567 := by
    decide
  rw [hgen "award_20240101.xml" (.vobj [("TENDER_AWARD_PRICE", .vstr "1234567")]) 1234567 hq]
  exact hfix

/-- Witness for C5's quantified row-level part at the concrete price
`"1234567"`. -/
theorem rounding_row_and_summary_witness :
    (normalizeRow "award_20240102.xml"
        (.vobj [("TENDER_AWARD_PRICE", .vstr "1234567")])).awardPrice = some 1234567 ∧
    (normalizeRow "award_20240102.xml"
        (.vobj [("TENDER_AWARD_PRICE", .vstr "1234567")])).awardPriceMillion =
      jsToFixed 6 ((1234567 : ℚ) / 1000000) := by
  have hq : (normalizeRow "award_20240102.xml"
      (.vobj [("TENDER_AWARD_PRICE", .vstr "1234567")])).awardPrice = some 1234567 := by
    decide
  exact ⟨hq, (rounding_row_and_summary).1 "award_20240102.xml"
    (.vobj [("TENDER_AWARD_PRICE", .vstr "1234567")]) 1234567 hq⟩

/-- C4 counterexample: with an empty award date present the comparator
(`NaN` differences become `+0`) is not consistent, so leaving the input
untouched is a conforming result of the sort — yet that output is
neither descending by date nor has the empty-dated row after every
parseable one.  Empty dates do not "parse as the lowest comparable
value": `new Date('')` is `Invalid Date`. -/
theorem summary_sort_empty_not_oldest :
    jsSortedResult (summaryCmp c4Dv) c4Rows c4Rows ∧ ¬claimedSummaryOrder c4Dv c4Rows := by
  refine ⟨⟨List.Perm.refl _, fun hcons => absurd hcons (by decide)⟩, by decide⟩

/-- C4 (amended): when every summary row's award date parses, the
comparator is consistent and every conforming sort result is descending
by award-date value; with empty or unparseable dates present the
comparator is inconsistent and the output order is
implementation-defined (such rows are not pushed to the end). -/
theorem summary_sort_descending_when_parseable (dv : String → Option Int)
    (l : List SummaryRow)
    (hparse : ∀ r ∈ l, (dv r.awardNoticeDate).isSome) :
    ConsistentOn (summaryCmp dv) l ∧
    (∀ out, jsSortedResult (summaryCmp dv) l out →
      out.Pairwise (fun a b => descPairB dv a b = true)) := by
  have hle : ∀ a b xa xb, dv a.awardNoticeDate = some xa → dv b.awardNoticeDate = some xb →
      (summaryCmp dv a b ≤ 0 ↔ xb ≤ xa) := by
    intro a b xa xb ha hb
    unfold summaryCmp
    rw [ha, hb]
    dsimp only
    by_cases h1 : xb > xa
    · rw [if_pos h1]
      omega
    · rw [if_neg h1]
      by_cases h2 : xb < xa <;> simp [h2] <;> omega
  have hcons : ConsistentOn (summaryCmp dv) l := by
    constructor
    · intro a ha b hb
      rcases Option.isSome_iff_exists.mp (hparse a ha) with ⟨xa, hxa⟩
      rcases Option.isSome_iff_exists.mp (hparse b hb) with ⟨xb, hxb⟩
      by_cases h : xb ≤ xa
      · exact Or.inl ((hle a b xa xb hxa hxb).mpr h)
      · exact Or.inr ((hle b a xb xa hxb hxa).mpr (by omega))
    · intro a ha b hb d hd h1 h2
      rcases Option.isSome_iff_exists.mp (hparse a ha) with ⟨xa, hxa⟩
      rcases Option.isSome_iff_exists.mp (hparse b hb) with ⟨xb, hxb⟩
      rcases Option.isSome_iff_exists.mp (hparse d hd) with ⟨xd, hxd⟩
      have hba := (hle a b xa xb hxa hxb).mp h1
      have hdb := (hle b d xb xd hxb hxd).mp h2
      exact (hle a d xa xd hxa hxd).mpr (le_trans hdb hba)
  refine ⟨hcons, ?_⟩
  intro out hout
  have hpw := hout.2 hcons
  refine hpw.imp ?_
  intro a b hab
  unfold descPairB
  cases hda : dv a.awardNoticeDate with
  | none => rfl
  | some xa =>
      cases hdb : dv b.awardNoticeDate with
      | none => rfl
      | some xb =>
          have := (hle a b xa xb hda hdb).mp hab
          simpa using this

/-- Witness for the amended C4 on a concrete parseable-date input. -/
theorem summary_sort_descending_when_parseable_witness :
    (∀ r ∈ c4SortIn, (c4Dv r.awardNoticeDate).isSome) ∧
    jsSortedResult (summaryCmp c4Dv) c4SortIn c4SortOut ∧
    (ConsistentOn (summaryCmp c4Dv) c4SortIn ∧
      (∀ out, jsSortedResult (summaryCmp c4Dv) c4SortIn out →
        out.Pairwise (fun a b => descPairB c4Dv a b = true))) :=
  ⟨by decide, by decide, summary_sort_descending_when_parseable c4Dv c4SortIn (by decide)⟩

theorem fileStep_fst (dv : String → Option Int) (oracle : String → FetchResult)
    (st : Progress × JobAccum) (f : String) :
    (fileStep dv oracle st f).1 =
      updateProgress st.1 f (fileCount oracle f) (fileMsg oracle f) := by
  unfold fileStep fileCount fileMsg
  cases oracle f <;> rfl

/-- Through the per-file loop, every file contributes exactly one
progress entry (its label and its count), and the `complete` / `error`
flags are untouched. -/
theorem loop_progress (dv : String → Option Int) (oracle : String → FetchResult) :
    ∀ (files : List String) (st : Progress × JobAccum),
      (files.foldl (fileStep dv oracle) st).1.labels = st.1.labels ++ files ∧
      (files.foldl (fileStep dv oracle) st).1.counts =
        st.1.counts ++ files.map (fileCount oracle) ∧
      (files.foldl (fileStep dv oracle) st).1.complete = st.1.complete ∧
      (files.foldl (fileStep dv oracle) st).1.error = st.1.error := by
  intro files
  induction files with
  | nil => intro st; simp
  | cons f files ih =>
      intro st
      rw [List.foldl_cons]
      rcases ih (fileStep dv oracle st f) with ⟨h1, h2, h3, h4⟩
      rw [fileStep_fst] at h1 h2 h3 h4
      refine ⟨?_, ?_, ?_, ?_⟩
      · rw [h1]
        show (st.1.labels ++ [f]) ++ files = st.1.labels ++ f :: files
        simp
      · rw [h2]
        show (st.1.counts ++ [fileCount oracle f]) ++ files.map (fileCount oracle) =
          st.1.counts ++ fileCount oracle f :: files.map (fileCount oracle)
        simp
      · rw [h3]; rfl
      · rw [h4]; rfl

/-- C7: every resolved file contributes exactly one progress entry —
label in resolution order and count `0` with a non-empty failure
message when its fetch or parse fails, the extracted-tender count
otherwise — the loop continues past failures to the end of the list,
the job always reaches the completion event, and `error = true` exactly
when an exception escapes the per-file loop during emission. -/
theorem per_file_error_policy (dv : String → Option Int) (oracle : String → FetchResult)
    (emitFail : Option String) (now : Nat) (s e : Option CalDate) :
    (runJob dv oracle emitFail now s e).1.labels = buildFileList s e ∧
    (runJob dv oracle emitFail now s e).1.counts =
      (buildFileList s e).map (fileCount oracle) ∧
    (∀ f, oracle f = .fetchFail →
      fileCount oracle f = 0 ∧ fileMsg oracle f = "下載失敗：" ++ f) ∧
    (∀ f, oracle f = .parseFail →
      fileCount oracle f = 0 ∧ fileMsg oracle f = "解析失敗：" ++ f) ∧
    (runJob dv oracle emitFail now s e).1.complete = true ∧
    (runJob dv oracle emitFail now s e).1.error = emitFail.isSome := by
  have hloop := loop_progress dv oracle (buildFileList s e)
    (resetProgress (buildFileList s e).length, emptyAccum)
  rcases hloop with ⟨h1, h2, _, _⟩
  have hfc : ∀ f, oracle f = .fetchFail →
      fileCount oracle f = 0 ∧ fileMsg oracle f = "下載失敗：" ++ f := by
    intro f hf
    unfold fileCount fileMsg
    rw [hf]
    exact ⟨rfl, rfl⟩
  have hpc : ∀ f, oracle f = .parseFail →
      fileCount oracle f = 0 ∧ fileMsg oracle f = "解析失敗：" ++ f := by
    intro f hf
    unfold fileCount fileMsg
    rw [hf]
    exact ⟨rfl, rfl⟩
  unfold runJob runJobFiles
  cases emitFail with
  | some msg =>
      refine ⟨?_, ?_, hfc, hpc, rfl, rfl⟩
      · simpa [resetProgress] using h1
      · simpa [resetProgress] using h2
  | none =>
      refine ⟨?_, ?_, hfc, hpc, rfl, rfl⟩
      · simpa [resetProgress] using h1
      · simpa [resetProgress] using h2

/-- Witness for C7: concrete oracle, one failing and one succeeding
file, with and without an emission failure. -/
theorem per_file_error_policy_witness :
    c7Oracle "award_20240101.xml" = .fetchFail ∧
    (fileCount c7Oracle "award_20240101.xml" = 0 ∧
      fileMsg c7Oracle "award_20240101.xml" = "下載失敗：" ++ "award_20240101.xml") ∧
    (runJob (fun _ => none) c7Oracle (some "寫入失敗") 0
      (some ⟨2024, 1, 3⟩) (some ⟨2024, 1, 20⟩)).1.error = true ∧
    (runJob (fun _ => none) c7Oracle none 0
      (some ⟨2024, 1, 3⟩) (some ⟨2024, 1, 20⟩)).1.error = false :=
  ⟨rfl,
    (per_file_error_policy (fun _ => none) c7Oracle none 0
      (some ⟨2024, 1, 3⟩) (some ⟨2024, 1, 20⟩)).2.2.1 "award_20240101.xml" rfl,
    (per_file_error_policy (fun _ => none) c7Oracle (some "寫入失敗") 0
      (some ⟨2024, 1, 3⟩) (some ⟨2024, 1, 20⟩)).2.2.2.2.2,
    (per_file_error_policy (fun _ => none) c7Oracle none 0
      (some ⟨2024, 1, 3⟩) (some ⟨2024, 1, 20⟩)).2.2.2.2.2⟩

/-- C6: for a range where either date is unparseable or start is
strictly after end, the period resolver returns the empty sequence (not
an error), and a job over it completes with `error = false` and empty
output (no progress entries, zero summary and raw rows), provided the
emission of the (empty) report files itself succeeds. -/
theorem invalid_range_empty_success (dv : String → Option Int) (oracle : String → FetchResult)
    (now : Nat) (s e : Option CalDate)
    (hbad : s = none ∨ e = none ∨
      ∃ sd ed, s = some sd ∧ e = some ed ∧ dateNum sd > dateNum ed) :
    buildFileList s e = [] ∧
    (runJob dv oracle none now s e).1.complete = true ∧
    (runJob dv oracle none now s e).1.error = false ∧
    (runJob dv oracle none now s e).1.summaryRowCount = 0 ∧
    (runJob dv oracle none now s e).1.rawRowCount = 0 ∧
    (runJob dv oracle none now s e).1.labels = [] ∧
    (runJob dv oracle none now s e).1.percent = 100 := by
  have hfiles : buildFileList s e = [] := by
    rcases hbad with rfl | rfl | ⟨sd, ed, rfl, rfl, hlt⟩
    · cases e <;> rfl
    · cases s <;> rfl
    · rw [buildFileList_red, if_pos hlt]
  have hrun : runJob dv oracle none now s e = runJobFiles dv oracle none now [] := by
    unfold runJob
    rw [hfiles]
  rw [hrun]
  exact ⟨hfiles, rfl, rfl, rfl, rfl, rfl, rfl⟩

/-- Witness for C6 at a concrete inverted range. -/
theorem invalid_range_empty_success_witness :
    (some (⟨2024, 1, 10⟩ : CalDate) = none ∨ some (⟨2024, 1, 3⟩ : CalDate) = none ∨
      ∃ sd ed, some (⟨2024, 1, 10⟩ : CalDate) = some sd ∧
        some (⟨2024, 1, 3⟩ : CalDate) = some ed ∧ dateNum sd > dateNum ed) ∧
    (buildFileList (some ⟨2024, 1, 10⟩) (some ⟨2024, 1, 3⟩) = [] ∧
      (runJob (fun _ => none) c7Oracle none 0
        (some ⟨2024, 1, 10⟩) (some ⟨2024, 1, 3⟩)).1.complete = true ∧
      (runJob (fun _ => none) c7Oracle none 0
        (some ⟨2024, 1, 10⟩) (some ⟨2024, 1, 3⟩)).1.error = false ∧
      (runJob (fun _ => none) c7Oracle none 0
        (some ⟨2024, 1, 10⟩) (some ⟨2024, 1, 3⟩)).1.summaryRowCount = 0 ∧
      (runJob (fun _ => none) c7Oracle none 0
        (some ⟨2024, 1, 10⟩) (some ⟨2024, 1, 3⟩)).1.rawRowCount = 0 ∧
      (runJob (fun _ => none) c7Oracle none 0
        (some ⟨2024, 1, 10⟩) (some ⟨2024, 1, 3⟩)).1.labels = [] ∧
      (runJob (fun _ => none) c7Oracle none 0
        (some ⟨2024, 1, 10⟩) (some ⟨2024, 1, 3⟩)).1.percent = 100) :=
  ⟨Or.inr (Or.inr ⟨⟨2024, 1, 10⟩, ⟨2024, 1, 3⟩, rfl, rfl, by decide⟩),
    invalid_range_empty_success (fun _ => none) c7Oracle 0
      (some ⟨2024, 1, 10⟩) (some ⟨2024, 1, 3⟩)
      (Or.inr (Or.inr ⟨⟨2024, 1, 10⟩, ⟨2024, 1, 3⟩, rfl, rfl, by decide⟩))⟩

/-- C8: the history update reads the existing list tolerating a missing
file, corrupt contents, or non-array JSON by substituting the empty
list; it prepends the new entry at the front and writes the full list
back; and it never deduplicates — the written list is always exactly
one entry longer than what was read, even if an identical entry is
already present. -/
theorem history_read_repair_prepend :
    readHistory .missing = [] ∧
    readHistory .corrupt = [] ∧
    (∀ v : JSVal, (∀ l, v ≠ .varr l) → readHistory (.json v) = []) ∧
    (∀ l, readHistory (.json (.varr l)) = l) ∧
    (∀ (st : HistoryFileState) (entry : JSVal),
      updateHistory st entry = entry :: readHistory st ∧
      (updateHistory st entry).head? = some entry ∧
      (updateHistory st entry).length = (readHistory st).length + 1) := by
  refine ⟨rfl, rfl, ?_, fun l => rfl, fun st entry => ⟨rfl, rfl, rfl⟩⟩
  intro v hv
  unfold readHistory
  cases v with
  | varr l => exact absurd rfl (hv l)
  | vundefined => rfl
  | vnull => rfl
  | vbool b => rfl
  | vnum q => rfl
  | vstr s => rfl
  | vobj fields => rfl

/-- Witness for C8 at a non-array JSON value and a duplicate entry. -/
theorem history_read_repair_prepend_witness :
    (∀ l, JSVal.vobj [] ≠ JSVal.varr l) ∧
    readHistory (.json (.vobj [])) = [] ∧
    (updateHistory (.json (.varr [.vstr "a.xlsx"])) (.vstr "a.xlsx") =
        .vstr "a.xlsx" :: readHistory (.json (.varr [.vstr "a.xlsx"])) ∧
      (updateHistory (.json (.varr [.vstr "a.xlsx"])) (.vstr "a.xlsx")).head? =
        some (.vstr "a.xlsx") ∧
      (updateHistory (.json (.varr [.vstr "a.xlsx"])) (.vstr "a.xlsx")).length =
        (readHistory (.json (.varr [.vstr "a.xlsx"]))).length + 1) :=
  ⟨fun _l h => JSVal.noConfusion h,
    history_read_repair_prepend.2.2.1 (.vobj []) (fun _l h => JSVal.noConfusion h),
    history_read_repair_prepend.2.2.2.2 (.json (.varr [.vstr "a.xlsx"])) (.vstr "a.xlsx")⟩

end PccAward
